import Mathlib

/-!
Verification of the interactive file-selection prompt and its diff-based
terminal renderer (repository `glint`).

The definitions below are a shallow embedding of `src/prompt/files_prompt.rs`
and `src/git.rs`.  Machine integers: `focused_index` is a `u16` in the source;
its arithmetic is embedded on `Nat` with explicit `% 65536` wrap-around at the
operations the source performs on `u16` values.  Partial operations (slice
indexing, `Iterator::nth` + `expect`) are embedded as `Option`-returning
functions, `none` marking the panic branch.  Terminal colors and ANSI style
markers (the external `color`/`crossterm` styling helpers) are embedded as the
identity: they change neither line counts, line order, nor the selection
logic that the properties below are about.
-/

namespace Glint

/-- Embedding of `GitStatusType` from `src/git.rs`. -/
inductive GitStatusType where
  | Added
  | Modified
  | Renamed
  | Untracked
  | Deleted
  | None
deriving DecidableEq, Repr

/-- Embedding of `GitStatusItem` from `src/git.rs`: a file name plus optional
staged/unstaged classification. -/
structure GitStatusItem where
  file_name : String
  staged : Option GitStatusType
  unstaged : Option GitStatusType
deriving DecidableEq, Repr

/-- Embedding of `GitStatusItem::new`: only the file name, no status. -/
def GitStatusItem.new (file_name : String) : GitStatusItem :=
  { file_name := file_name, staged := none, unstaged := none }

/-- Embedding of `GitStatusItem::status`: the unstaged category, defaulting to
`GitStatusType::None`. -/
def GitStatusItem.status (it : GitStatusItem) : GitStatusType :=
  it.unstaged.getD GitStatusType.None

/-- Embedding of the key events the prompt can receive (crossterm `KeyEvent`;
a representative set of the variants, all of which the prompt's `match` either
recognizes or sends to the catch-all arm). -/
inductive KeyEvent where
  | Ctrl (c : Char)
  | Chr (c : Char)
  | Enter
  | Esc
  | Up
  | Down
  | Backspace
  | Left
  | Right
  | Home
  | End
  | PageUp
  | PageDown
  | Delete
  | Insert
  | Alt (c : Char)
  | Null
deriving DecidableEq, Repr

/-- Embedding of crossterm `InputEvent` (payloads of the non-keyboard variants
are irrelevant to the prompt and omitted). -/
inductive InputEvent where
  | Keyboard (k : KeyEvent)
  | Mouse
  | Unsupported
  | Unknown
deriving DecidableEq, Repr

/-- Embedding of the `FilesPrompt` state (`src/prompt/files_prompt.rs`):
the per-row checked flags, the focused row (`u16` in the source), and the
file rows supplied by `git status`.  The `config`/`git` collaborator handles
carry no selection state and are omitted. -/
structure FilesPrompt where
  checked : List Bool
  focused_index : Nat
  options : List GitStatusItem
deriving DecidableEq, Repr

/-- Embedding of `FilesPrompt::new`: one `false` flag per option, focus 0. -/
def FilesPrompt.new (options : List GitStatusItem) : FilesPrompt :=
  { checked := (List.range options.length).map (fun _ => false)
    focused_index := 0
    options := options }

/-- Embedding of the Space handler's toggle-all branch (focus = 0):
`set_to = !checked.iter().all(|&x| x)`, then every flag is set to `set_to`. -/
def toggleAll (checked : List Bool) : List Bool :=
  let set_to := !(checked.all (fun x => x))
  checked.map (fun _ => set_to)

/-- Embedding of the Space handler (`KeyEvent::Char(' ')` arm): at focus 0
toggle all, otherwise flip `checked[index - 1]`.  The out-of-bounds panic of
`self.checked[index - 1]` is the `none` branch. -/
def spaceChecked (checked : List Bool) (index : Nat) : Option (List Bool) :=
  if index = 0 then
    some (toggleAll checked)
  else
    match checked[index - 1]? with
    | some b => some (checked.set (index - 1) (!b))
    | none => none

/-- Embedding of the target-file computation of the 'd' handler: empty list at
focus 0 (diff everything), otherwise the single file at `focus - 1`; the
`.nth(index - 1).expect(..)` panic is the `none` branch. -/
def dFiles (options : List GitStatusItem) (index : Nat) : Option (List String) :=
  if index = 0 then
    some []
  else
    (options[index - 1]?).map (fun o => [o.file_name])

/-- Embedding of the Enter handler's selection:
`options.iter().enumerate().filter_map(|(i, file)| Some(file).filter(|_| self.checked[i])).map(Into::into).collect()`.
The index `i` is absolute; `self.checked[i]` out of bounds is the `none`
branch. -/
def enterAux (checked : List Bool) : List GitStatusItem → Nat → Option (List String)
  | [], _ => some []
  | f :: rest, i =>
    match checked[i]? with
    | none => none
    | some b =>
      match enterAux checked rest (i + 1) with
      | none => none
      | some tl => some (if b then f.file_name :: tl else tl)

/-- Embedding of the full Enter selection starting at index 0. -/
def enterSelected (options : List GitStatusItem) (checked : List Bool) : Option (List String) :=
  enterAux checked options 0

/-- Embedding of the Up handler:
`match focused_index { 0 => 0, x => x.saturating_sub(1) }`. -/
def upFocus : Nat → Nat
  | 0 => 0
  | x => x - 1

/-- Embedding of the Down handler on the `u16` focus:
`total = options.len() as u16 + 1` (the `usize → u16` cast truncates and the
increment wraps, embedded as `% 65536`), `focused_index += 1`, then clamp to
`total.saturating_sub(1)` when `focused_index >= total`. -/
def downFocus (n f : Nat) : Nat :=
  let total := (n % 65536 + 1) % 65536
  let f' := (f + 1) % 65536
  if f' ≥ total then total - 1 else f'

/-- Outcome of one iteration of the `FilesPrompt::run` loop body.
`Terminate`/`Escape`/`Files` are the loop's return values
(`FilesPromptResult`); `Render s` means the iteration falls through to the
rebuild-render-flush part of the loop with state `s`; `NoOp s` means the arm
executed `continue`, skipping the rebuild entirely with state `s` untouched. -/
inductive StepResult where
  | Terminate
  | Escape
  | Files (files : List String)
  | NoOp (s : FilesPrompt)
  | Render (s : FilesPrompt)
deriving DecidableEq, Repr

/-- Embedding of the event `match` of the `FilesPrompt::run` loop body
(`src/prompt/files_prompt.rs` lines 57-118).  `e = none` is the synthetic
first-iteration tick.  The result is `none` exactly on the panic branches of
the handlers (out-of-bounds index / failed `expect`). -/
def step (s : FilesPrompt) (e : Option InputEvent) : Option StepResult :=
  match e with
  | some (InputEvent.Keyboard (KeyEvent.Ctrl c)) =>
    if c = 'c' then some StepResult.Terminate else some (StepResult.NoOp s)
  | some (InputEvent.Keyboard (KeyEvent.Chr c)) =>
    if c = ' ' then
      match spaceChecked s.checked s.focused_index with
      | none => none
      | some c' => some (StepResult.Render { s with checked := c' })
    else if c = 'd' then
      match dFiles s.options s.focused_index with
      | none => none
      | some _ => some (StepResult.Render s)
    else some (StepResult.NoOp s)
  | some (InputEvent.Keyboard KeyEvent.Enter) =>
    match enterSelected s.options s.checked with
    | none => none
    | some sel => some (StepResult.Files sel)
  | some (InputEvent.Keyboard KeyEvent.Esc) => some StepResult.Escape
  | some (InputEvent.Keyboard KeyEvent.Up) =>
    some (StepResult.Render { s with focused_index := upFocus s.focused_index })
  | some (InputEvent.Keyboard KeyEvent.Down) =>
    some (StepResult.Render { s with focused_index := downFocus s.options.length s.focused_index })
  | none => some (StepResult.Render s)
  | some _ => some (StepResult.NoOp s)

/-- State carried to the next loop iteration by a step outcome, when there is
one (`Render` and `NoOp`); the three terminal outcomes end the loop. -/
def resultState : StepResult → Option FilesPrompt
  | StepResult.NoOp s => some s
  | StepResult.Render s => some s
  | _ => none

/-- THE selection-state invariant of the prompt: one checked flag per option
and the focused row within `[0, N]` (row 0 is the virtual select-all row). -/
def Inv (s : FilesPrompt) : Prop :=
  s.checked.length = s.options.length ∧ s.focused_index ≤ s.options.length

instance (s : FilesPrompt) : Decidable (Inv s) := by
  unfold Inv
  infer_instance

/-- Embedding of the instruction line
`"Toggle files to commit (with <space>, or tap 'd' for diff):"`. -/
def promptPre : String := "Toggle files to commit (with <space>, or tap 'd' for diff):"

/-- Embedding of `"-".repeat(prompt_pre.len())` (the ANSI reset marker
appended by `reset_display()` is styling and embedded as identity). -/
def underscores : String := String.mk (List.replicate promptPre.length '-')

/-- Embedding of the display-cap arithmetic (lines 146-148):
`max = 15; take = if total > max { max - 3 } else { total }`. -/
def takeCount (total : Nat) : Nat :=
  if total > 15 then 15 - 3 else total

/-- Embedding of one displayed row (lines 155-180): checkbox glyph, status
glyph, file name; the focus-dependent coloring is styling and embedded as
identity, so the `focused` flag does not alter the text. -/
def rowLine (_focused : Bool) (flag : Bool) (item : GitStatusItem) : String :=
  let box := if flag then "☑" else "□"
  let file_status :=
    match item.status with
    | GitStatusType.Untracked => "+"
    | GitStatusType.Modified => "•"
    | GitStatusType.Deleted => "-"
    | _ => " "
  box ++ " " ++ file_status ++ " " ++ item.file_name ++ ""
  -- trailing "" stands for reset_display(), an ANSI marker (identity here)

/-- Embedding of the row-render loop body over the already-truncated row list
(virtual select-all row first), carrying the absolute enumeration index `i`:
row 0 shows the all-checked aggregate, row `i ≥ 1` reads `checked[i - 1]`
(out of bounds = panic = `none`); the focus comparison is
`i as u16 == focused_index`. -/
def rowsAux (checked : List Bool) (focus : Nat) : List GitStatusItem → Nat → Option (List String)
  | [], _ => some []
  | item :: rest, i =>
    let flag? := if i = 0 then some (checked.all (fun x => x)) else checked[i - 1]?
    match flag? with
    | none => none
    | some flag =>
      match rowsAux checked focus rest (i + 1) with
      | none => none
      | some tl => some (rowLine (i % 65536 == focus) flag item :: tl)

/-- Embedding of the displayed rows of one frame: the chain
`once(<all>).chain(options).enumerate().take(take + 1)` fed to the row loop. -/
def promptRows (s : FilesPrompt) : Option (List String) :=
  rowsAux s.checked s.focused_index
    ((GitStatusItem.new "<all>" :: s.options).take (takeCount s.options.length + 1)) 0

/-- Embedding of the trailing summary (lines 183-186): when the row list was
truncated, one line `"and {diff} more"`. -/
def summaryLines (total : Nat) : List String :=
  if takeCount total < total then ["and " ++ toString (total - takeCount total) ++ " more"] else []

/-- Embedding of one full frame rebuild of the loop body (lines 120-188):
banner lines (the figlet output, an opaque parameter here), a blank line, the
two instruction lines, the rows, the optional summary line; the cursor target
row is `buffer.lines() + focused_index` taken right after the instruction
block, i.e. banner height + 3 + focus.  `none` is the row loop's panic. -/
def buildFrame (header : List String) (s : FilesPrompt) : Option (List String × Nat) :=
  let pre := header ++ ["", promptPre, underscores]
  let y := pre.length + s.focused_index
  match promptRows s with
  | none => none
  | some rows => some (pre ++ rows ++ summaryLines s.options.length, y)

/-! ### Frame buffer

`TermBuffer` lives in `src/term_buffer.rs`, which is not among the provided
sources; it is modelled from the spec (§4.1) below. -/

/-- Modelled from the spec: the three write operations `render()` may emit for
an index of the line-by-line diff (overwrite a differing line in place,
append a line present only in `pending`, clear to blank a line present only
in `previous`).  The source file `src/term_buffer.rs` is not provided. -/
inductive TermOp where
  | OverwriteLine (i : Nat) (text : String)
  | AppendLine (text : String)
  | ClearLine (i : Nat)
deriving DecidableEq, Repr

/-- Modelled from the spec: the line-by-line diff of `render()` (§4.1),
walking `previous` and `pending` in lockstep from absolute line index `i`:
identical lines emit nothing, differing lines an overwrite, extra pending
lines an append, extra previous lines a clear-to-blank. -/
def renderOps : List String → List String → Nat → List TermOp
  | [], [], _ => []
  | [], q :: qs, i => TermOp.AppendLine q :: renderOps [] qs (i + 1)
  | _ :: ps, [], i => TermOp.ClearLine i :: renderOps ps [] (i + 1)
  | p :: ps, q :: qs, i =>
    (if p = q then [] else [TermOp.OverwriteLine i q]) ++ renderOps ps qs (i + 1)

/-- Modelled from the spec: the effect of one emitted write operation on the
visible terminal content (a list of lines). -/
def applyOp (screen : List String) : TermOp → List String
  | TermOp.OverwriteLine i q => screen.set i q
  | TermOp.AppendLine q => screen ++ [q]
  | TermOp.ClearLine i => screen.set i ""

/-- Modelled from the spec: the `RenderState` of the frame buffer — the last
flushed frame, the frame under construction, and the recorded cursor
target. -/
structure TermBuffer where
  previous : List String
  pending : List String
  cursorTarget : Nat × Nat
deriving DecidableEq, Repr

/-- Modelled from the spec: the visible terminal — its lines and cursor. -/
structure Terminal where
  screen : List String
  cursor : Nat × Nat
deriving DecidableEq, Repr

/-- Modelled from the spec: `render()` followed by `flush()` — apply the
diff's operations to the terminal, move the cursor to the recorded target,
promote `pending` to `previous` and clear `pending` (§4.1). -/
def TermBuffer.flush (b : TermBuffer) (t : Terminal) : TermBuffer × Terminal :=
  ({ previous := b.pending, pending := [], cursorTarget := b.cursorTarget },
   { screen := (renderOps b.previous b.pending 0).foldl applyOp t.screen,
     cursor := b.cursorTarget })

/-- Line index a write operation touches (appends touch no existing index). -/
def touchIdx : TermOp → Option Nat
  | TermOp.OverwriteLine i _ => some i
  | TermOp.ClearLine i => some i
  | TermOp.AppendLine _ => none

/-- Bool-valued recognizer for the seven event kinds the prompt's `match`
handles (Ctrl-C, Space, 'd', Enter, Escape, Up, Down); everything else falls
to the catch-all `continue` arm. -/
def recognizedEvent : InputEvent → Bool
  | InputEvent.Keyboard (KeyEvent.Ctrl c) => c == 'c'
  | InputEvent.Keyboard (KeyEvent.Chr c) => c == ' ' || c == 'd'
  | InputEvent.Keyboard KeyEvent.Enter => true
  | InputEvent.Keyboard KeyEvent.Esc => true
  | InputEvent.Keyboard KeyEvent.Up => true
  | InputEvent.Keyboard KeyEvent.Down => true
  | _ => false

/-! ### Sample states used by the witnesses -/

/-- Three-file provider list used by the concrete witnesses. -/
def sampleOptions : List GitStatusItem :=
  [GitStatusItem.new "a.txt", GitStatusItem.new "b.txt", GitStatusItem.new "c.txt"]

/-- Sample prompt state: three files, first and third checked, focus on row 2. -/
def sampleState : FilesPrompt :=
  { checked := [true, false, true], focused_index := 2, options := sampleOptions }

/-- `sampleState` after one Down press (focus 2 → 3). -/
def sampleDown : FilesPrompt :=
  { checked := [true, false, true], focused_index := 3, options := sampleOptions }

/-- Sample prompt state with focus on the select-all row. -/
def sampleFocus0 : FilesPrompt :=
  { checked := [true, false, true], focused_index := 0, options := sampleOptions }

/-- One-file state used by the frame-layout counterexample. -/
def smallState : FilesPrompt :=
  { checked := [false], focused_index := 0, options := [GitStatusItem.new "a.txt"] }

/-- Twenty-file state used by the display-cap witness. -/
def state20 : FilesPrompt :=
  { checked := List.replicate 20 false, focused_index := 0
    options := List.replicate 20 (GitStatusItem.new "f") }

/-- State with 65535 files and focus 65535, where the `u16` arithmetic of the
Down handler wraps. -/
def bigState : FilesPrompt :=
  { checked := List.replicate 65535 false, focused_index := 65535
    options := List.replicate 65535 (GitStatusItem.new "f") }

/-- Sample frame-buffer state: previous frame `[A,B,C]`, pending frame
`[A,X,C,D]`, cursor target row 2. -/
def sampleBuffer : TermBuffer :=
  { previous := ["A", "B", "C"], pending := ["A", "X", "C", "D"], cursorTarget := (0, 2) }

/-- Terminal currently showing `sampleBuffer.previous`. -/
def sampleTerminal : Terminal :=
  { screen := ["A", "B", "C"], cursor := (0, 0) }

/-! ### Helper lemmas -/

lemma upFocus_le (f : Nat) : upFocus f ≤ f := by
  cases f with
  | zero => exact Nat.le_refl 0
  | succ n => exact Nat.sub_le _ _

lemma downFocus_le (n f : Nat) : downFocus n f ≤ n := by
  simp only [downFocus]
  have h1 : (f + 1) % 65536 < 65536 := Nat.mod_lt _ (by norm_num)
  have h2 : (n % 65536 + 1) % 65536 < 65536 := Nat.mod_lt _ (by norm_num)
  by_cases hn : n < 65535
  · have hm : n % 65536 = n := Nat.mod_eq_of_lt (by omega)
    rw [hm]
    have hm2 : (n + 1) % 65536 = n + 1 := Nat.mod_eq_of_lt (by omega)
    rw [hm2]
    split <;> omega
  · split <;> omega

lemma downFocus_no_wrap (n f : Nat) (hn : n + 1 < 65536) (hf : f ≤ n) :
    downFocus n f = if f + 1 ≥ n + 1 then n else f + 1 := by
  simp only [downFocus]
  have hm : n % 65536 = n := Nat.mod_eq_of_lt (by omega)
  rw [hm]
  have hm2 : (n + 1) % 65536 = n + 1 := Nat.mod_eq_of_lt hn
  rw [hm2]
  have hf2 : (f + 1) % 65536 = f + 1 := Nat.mod_eq_of_lt (by omega)
  rw [hf2]
  split <;> omega

lemma toggleAll_length (checked : List Bool) : (toggleAll checked).length = checked.length := by
  simp [toggleAll]

lemma spaceChecked_some (checked : List Bool) (index : Nat) (h : index ≤ checked.length) :
    ∃ c, spaceChecked checked index = some c ∧ c.length = checked.length := by
  unfold spaceChecked
  by_cases h0 : index = 0
  · subst h0
    exact ⟨_, by simp, toggleAll_length checked⟩
  · have hlt : index - 1 < checked.length := by omega
    rw [if_neg h0, List.getElem?_eq_getElem hlt]
    exact ⟨_, rfl, by simp⟩

lemma takeCount_le (total : Nat) : takeCount total ≤ total := by
  unfold takeCount; split <;> omega

lemma enterAux_eq (checked : List Bool) (opts : List GitStatusItem) :
    ∀ i : Nat, i + opts.length ≤ checked.length →
      enterAux checked opts i =
        some (((opts.zip (checked.drop i)).filter (fun p => p.2)).map (fun p => p.1.file_name)) := by
  induction opts with
  | nil => intro i _; simp [enterAux]
  | cons f rest ih =>
    intro i h
    have hi : i < checked.length := by
      simp only [List.length_cons] at h; omega
    have hdrop : checked.drop i = checked[i] :: checked.drop (i + 1) :=
      List.drop_eq_getElem_cons hi
    have hrest := ih (i + 1) (by simp only [List.length_cons] at h; omega)
    simp only [enterAux, List.getElem?_eq_getElem hi, hrest, hdrop, List.zip_cons_cons,
      List.filter_cons]
    cases hc : checked[i] <;> simp [hc]

lemma rowsAux_some (checked : List Bool) (focus : Nat) (l : List GitStatusItem) :
    ∀ i : Nat, 1 ≤ i → i + l.length ≤ checked.length + 1 →
      ∃ out, rowsAux checked focus l i = some out ∧ out.length = l.length := by
  induction l with
  | nil => intro i _ _; exact ⟨[], by simp [rowsAux], rfl⟩
  | cons item rest ih =>
    intro i h1 h2
    have hlt : i - 1 < checked.length := by
      simp only [List.length_cons] at h2; omega
    obtain ⟨out, hout, hlen⟩ :=
      ih (i + 1) (by omega) (by simp only [List.length_cons] at h2; omega)
    refine ⟨rowLine (i % 65536 == focus) checked[i - 1] item :: out, ?_, ?_⟩
    · simp only [rowsAux, if_neg (by omega : ¬ i = 0), List.getElem?_eq_getElem hlt, hout]
    · simp [hlen]

lemma promptRows_spec (s : FilesPrompt) (h : Inv s) :
    ∃ rows, promptRows s = some rows ∧
      rows.length = takeCount s.options.length + 1 ∧
      rows.head? = some (rowLine (0 % 65536 == s.focused_index)
        (s.checked.all (fun x => x)) (GitStatusItem.new "<all>")) := by
  obtain ⟨hlen, _⟩ := h
  have htk : takeCount s.options.length ≤ s.options.length := takeCount_le _
  have htake : (s.options.take (takeCount s.options.length)).length
      = takeCount s.options.length := by
    simp [List.length_take]; omega
  obtain ⟨out, hout, holen⟩ :=
    rowsAux_some s.checked s.focused_index (s.options.take (takeCount s.options.length)) 1
      (Nat.le_refl 1) (by rw [htake, hlen]; omega)
  refine ⟨rowLine (0 % 65536 == s.focused_index) (s.checked.all (fun x => x))
      (GitStatusItem.new "<all>") :: out, ?_, ?_, ?_⟩
  · unfold promptRows
    rw [List.take_succ_cons]
    simp [rowsAux, hout]
  · simp [holen, htake]
  · simp

lemma set_append_cons {α : Type} (done : List α) (x : α) (rest : List α) (v : α) :
    (done ++ x :: rest).set done.length v = done ++ v :: rest := by
  induction done with
  | nil => rfl
  | cons d ds ih => simp [ih]

lemma foldl_renderOps : ∀ (prev pend done : List String),
    (renderOps prev pend done.length).foldl applyOp (done ++ prev) =
      done ++ (pend ++ List.replicate (prev.length - pend.length) "")
  | [], [], done => by simp [renderOps]
  | [], q :: qs, done => by
    have ih := foldl_renderOps [] qs (done ++ [q])
    simp only [List.length_append, List.length_cons, List.length_nil, List.append_nil,
      Nat.add_zero] at ih ⊢
    simp only [renderOps, List.foldl_cons, applyOp]
    rw [show done.length + 1 = done.length + [q].length by simp] at ih
    simpa [List.append_assoc] using ih
  | p :: ps, [], done => by
    have ih := foldl_renderOps ps [] (done ++ [""])
    simp only [List.length_append, List.length_cons, List.length_nil, List.append_nil,
      Nat.add_zero, Nat.zero_add] at ih ⊢
    simp only [renderOps, List.foldl_cons, applyOp, set_append_cons]
    rw [show done.length + 1 = done.length + [""].length by simp] at ih
    have hrep : ("" : String) :: List.replicate ps.length "" = List.replicate (ps.length + 1) "" :=
      (List.replicate_succ _ _).symm
    calc (renderOps ps [] (done.length + [""].length)).foldl applyOp (done ++ "" :: ps)
        = (renderOps ps [] (done.length + [""].length)).foldl applyOp ((done ++ [""]) ++ ps) := by
          simp [List.append_assoc]
      _ = done ++ [""] ++ List.replicate (ps.length - 0) "" := ih
      _ = done ++ List.replicate (ps.length + 1) "" := by
          simp [List.append_assoc, List.replicate_succ]
  | p :: ps, q :: qs, done => by
    have ih := foldl_renderOps ps qs (done ++ [q])
    simp only [List.length_append, List.length_cons, List.length_nil, Nat.add_zero] at ih ⊢
    rw [show done.length + 1 = done.length + [q].length by simp] at ih
    by_cases hpq : p = q
    · subst hpq
      simp only [renderOps, if_pos rfl, List.nil_append]
      calc (renderOps ps qs (done.length + [p].length)).foldl applyOp (done ++ p :: ps)
          = (renderOps ps qs (done.length + [p].length)).foldl applyOp ((done ++ [p]) ++ ps) := by
            simp [List.append_assoc]
        _ = done ++ [p] ++ (qs ++ List.replicate (ps.length - qs.length) "") := ih
        _ = done ++ (p :: qs ++ List.replicate (ps.length + 1 - (qs.length + 1)) "") := by
            simp [List.append_assoc]
    · simp only [renderOps, if_neg hpq, List.singleton_append, List.foldl_cons, applyOp,
        set_append_cons]
      calc (renderOps ps qs (done.length + [q].length)).foldl applyOp (done ++ q :: ps)
          = (renderOps ps qs (done.length + [q].length)).foldl applyOp ((done ++ [q]) ++ ps) := by
            simp [List.append_assoc]
        _ = done ++ [q] ++ (qs ++ List.replicate (ps.length - qs.length) "") := ih
        _ = done ++ (q :: qs ++ List.replicate (ps.length + 1 - (qs.length + 1)) "") := by
            simp [List.append_assoc]
  termination_by prev pend _ => prev.length + pend.length
  decreasing_by all_goals (simp; try omega)

lemma renderOps_touch_ge : ∀ (prev pend : List String) (i : Nat) (op : TermOp),
    op ∈ renderOps prev pend i → ∀ m, touchIdx op = some m → i ≤ m
  | [], [], _, _ => by simp [renderOps]
  | [], q :: qs, i, op => by
    intro hmem m hto
    simp only [renderOps, List.mem_cons] at hmem
    rcases hmem with h | h
    · subst h; simp [touchIdx] at hto
    · have := renderOps_touch_ge [] qs (i + 1) op h m hto
      omega
  | p :: ps, [], i, op => by
    intro hmem m hto
    simp only [renderOps, List.mem_cons] at hmem
    rcases hmem with h | h
    · subst h; simp only [touchIdx, Option.some.injEq] at hto; omega
    · have := renderOps_touch_ge ps [] (i + 1) op h m hto
      omega
  | p :: ps, q :: qs, i, op => by
    intro hmem m hto
    simp only [renderOps, List.mem_append] at hmem
    rcases hmem with h | h
    · by_cases hpq : p = q
      · simp [if_pos hpq] at h
      · simp only [if_neg hpq, List.mem_singleton] at h
        subst h
        simp only [touchIdx, Option.some.injEq] at hto
        omega
    · have := renderOps_touch_ge ps qs (i + 1) op h m hto
      omega
  termination_by prev pend _ _ => prev.length + pend.length
  decreasing_by all_goals (simp; try omega)

lemma renderOps_untouched : ∀ (prev pend : List String) (i j : Nat),
    prev[j]? = pend[j]? → (pend[j]?).isSome →
    ∀ op ∈ renderOps prev pend i, touchIdx op ≠ some (i + j)
  | [], [], _, _ => by simp [renderOps]
  | [], q :: qs, i, j => by
    intro heq hsome op _ hto
    rw [← heq] at hsome
    simp at hsome
  | p :: ps, [], i, j => by
    intro _ hsome op _ _
    simp at hsome
  | p :: ps, q :: qs, i, j => by
    intro heq hsome op hmem hto
    simp only [renderOps, List.mem_append] at hmem
    rcases hmem with h | h
    · by_cases hpq : p = q
      · simp [if_pos hpq] at h
      · simp only [if_neg hpq, List.mem_singleton] at h
        subst h
        simp only [touchIdx, Option.some.injEq] at hto
        have hj : j = 0 := by omega
        subst hj
        simp at heq
        exact hpq heq
    · cases j with
      | zero =>
        have := renderOps_touch_ge ps qs (i + 1) op h (i + 0) hto
        omega
      | succ j' =>
        have heq' : ps[j']? = qs[j']? := by simpa using heq
        have hsome' : (qs[j']?).isSome := by simpa using hsome
        have := renderOps_untouched ps qs (i + 1) j' heq' hsome' op h
        rw [show i + (j' + 1) = (i + 1) + j' by omega] at hto
        exact this hto
  termination_by prev pend _ _ => prev.length + pend.length
  decreasing_by all_goals (simp; try omega)

lemma upFocus_eq (f : Nat) : upFocus f = f - 1 := by
  cases f with
  | zero => rfl
  | succ n => rfl

lemma spaceChecked_length (l : List Bool) (i : Nat) (c : List Bool)
    (h : spaceChecked l i = some c) : c.length = l.length := by
  unfold spaceChecked at h
  split at h
  · simp only [Option.some.injEq] at h
    rw [← h]
    exact toggleAll_length l
  · cases hg : l[i - 1]? with
    | none => rw [hg] at h; simp at h
    | some b =>
      rw [hg] at h
      simp only [Option.some.injEq] at h
      rw [← h]
      simp

lemma dFiles_some (options : List GitStatusItem) (index : Nat) (h : index ≤ options.length) :
    ∃ fs, dFiles options index = some fs := by
  unfold dFiles
  by_cases h0 : index = 0
  · exact ⟨[], by simp [h0]⟩
  · have hlt : index - 1 < options.length := by omega
    rw [if_neg h0, List.getElem?_eq_getElem hlt]
    exact ⟨_, rfl⟩

/-! ### Claim theorems -/

/-- C1: for every selection state whose checked list matches the provider
list, pressing Enter ends the loop with `Files` carrying exactly the
filenames whose checked flag is true, in provider order, and the result does
not depend on the focused-row index. -/
theorem enter_submits_checked (s : FilesPrompt)
    (hlen : s.checked.length = s.options.length) :
    step s (some (InputEvent.Keyboard KeyEvent.Enter)) =
      some (StepResult.Files
        (((s.options.zip s.checked).filter (fun p => p.2)).map (fun p => p.1.file_name))) ∧
    ∀ f, step { s with focused_index := f } (some (InputEvent.Keyboard KeyEvent.Enter)) =
      step s (some (InputEvent.Keyboard KeyEvent.Enter)) := by
  have h0 : enterAux s.checked s.options 0 =
      some (((s.options.zip s.checked).filter (fun p => p.2)).map (fun p => p.1.file_name)) := by
    simpa using enterAux_eq s.checked s.options 0 (by omega)
  refine ⟨?_, fun f => rfl⟩
  simp [step, enterSelected, h0]

/-- Witness for C1 at the concrete state `sampleState`: files a, b, c with
flags true, false, true yield exactly `["a.txt", "c.txt"]`. -/
theorem enter_submits_checked_witness :
    sampleState.checked.length = sampleState.options.length ∧
    (step sampleState (some (InputEvent.Keyboard KeyEvent.Enter)) =
      some (StepResult.Files
        (((sampleState.options.zip sampleState.checked).filter (fun p => p.2)).map
          (fun p => p.1.file_name))) ∧
    ∀ f, step { sampleState with focused_index := f } (some (InputEvent.Keyboard KeyEvent.Enter)) =
      step sampleState (some (InputEvent.Keyboard KeyEvent.Enter))) :=
  ⟨by decide, enter_submits_checked sampleState (by decide)⟩

/-- C2: pressing Space with focus 0 replaces the flag list by `toggleAll`,
which sets every flag to the negation of the current all-checked predicate:
all true when not all were true, all false when all were true. -/
theorem space_focus0_toggle_all (s : FilesPrompt) (hf : s.focused_index = 0) :
    step s (some (InputEvent.Keyboard (KeyEvent.Chr ' '))) =
      some (StepResult.Render { s with checked := toggleAll s.checked }) ∧
    (¬ s.checked.all (fun x => x) = true → ∀ b ∈ toggleAll s.checked, b = true) ∧
    (s.checked.all (fun x => x) = true → ∀ b ∈ toggleAll s.checked, b = false) ∧
    (toggleAll s.checked).length = s.checked.length := by
  refine ⟨?_, ?_, ?_, toggleAll_length _⟩
  · simp [step, spaceChecked, hf]
  · intro hall b hb
    simp only [toggleAll, List.mem_map] at hb
    obtain ⟨a, _, rfl⟩ := hb
    simp [Bool.not_eq_true] at hall
    simp [hall]
  · intro hall b hb
    simp only [toggleAll, List.mem_map] at hb
    obtain ⟨a, _, rfl⟩ := hb
    simp [hall]

/-- Witness for C2 at `sampleFocus0` (not all flags true, so Space checks
everything). -/
theorem space_focus0_toggle_all_witness :
    sampleFocus0.focused_index = 0 ∧
    (step sampleFocus0 (some (InputEvent.Keyboard (KeyEvent.Chr ' '))) =
      some (StepResult.Render { sampleFocus0 with checked := toggleAll sampleFocus0.checked }) ∧
    (¬ sampleFocus0.checked.all (fun x => x) = true →
      ∀ b ∈ toggleAll sampleFocus0.checked, b = true) ∧
    (sampleFocus0.checked.all (fun x => x) = true →
      ∀ b ∈ toggleAll sampleFocus0.checked, b = false) ∧
    (toggleAll sampleFocus0.checked).length = sampleFocus0.checked.length) :=
  ⟨rfl, space_focus0_toggle_all sampleFocus0 rfl⟩

/-- C3: pressing Space with focus `r ∈ [1, N]` flips exactly `checked[r-1]`;
every other flag and the focused-row index are unchanged. -/
theorem space_toggles_single (s : FilesPrompt) (r : Nat) (hr1 : 1 ≤ r)
    (hrN : r ≤ s.options.length) (hlen : s.checked.length = s.options.length)
    (hf : s.focused_index = r) :
    ∃ b, s.checked[r - 1]? = some b ∧
      step s (some (InputEvent.Keyboard (KeyEvent.Chr ' '))) =
        some (StepResult.Render { s with checked := s.checked.set (r - 1) (!b) }) ∧
      (s.checked.set (r - 1) (!b))[r - 1]? = some (!b) ∧
      (∀ j, j ≠ r - 1 → (s.checked.set (r - 1) (!b))[j]? = s.checked[j]?) ∧
      (FilesPrompt.focused_index { s with checked := s.checked.set (r - 1) (!b) })
        = s.focused_index := by
  have hlt : r - 1 < s.checked.length := by omega
  refine ⟨s.checked[r - 1], List.getElem?_eq_getElem hlt, ?_, ?_, ?_, rfl⟩
  · simp [step, spaceChecked, hf, if_neg (by omega : ¬ r = 0), List.getElem?_eq_getElem hlt]
  · exact List.getElem?_set_eq_of_lt _ hlt
  · intro j hj
    exact List.getElem?_set_ne (Ne.symm hj)

/-- Witness for C3 at `sampleState` (focus 2 toggles `checked[1]` only). -/
theorem space_toggles_single_witness :
    1 ≤ 2 ∧ 2 ≤ sampleState.options.length ∧
    sampleState.checked.length = sampleState.options.length ∧
    sampleState.focused_index = 2 ∧
    (∃ b, sampleState.checked[2 - 1]? = some b ∧
      step sampleState (some (InputEvent.Keyboard (KeyEvent.Chr ' '))) =
        some (StepResult.Render
          { sampleState with checked := sampleState.checked.set (2 - 1) (!b) }) ∧
      (sampleState.checked.set (2 - 1) (!b))[2 - 1]? = some (!b) ∧
      (∀ j, j ≠ 2 - 1 → (sampleState.checked.set (2 - 1) (!b))[j]? = sampleState.checked[j]?) ∧
      (FilesPrompt.focused_index
          { sampleState with checked := sampleState.checked.set (2 - 1) (!b) })
        = sampleState.focused_index) :=
  ⟨by decide, by decide, by decide, rfl,
    space_toggles_single sampleState 2 (by decide) (by decide) (by decide) rfl⟩

/-- C8: every event other than the seven recognized kinds takes the
catch-all `continue` arm: the state is returned untouched and no
rebuild/render/flush happens for that iteration (`StepResult.NoOp`). -/
theorem unrecognized_event_noop (s : FilesPrompt) (e : InputEvent)
    (h : recognizedEvent e = false) :
    step s (some e) = some (StepResult.NoOp s) := by
  cases e with
  | Keyboard k =>
    cases k with
    | Ctrl c =>
      simp only [recognizedEvent, beq_eq_false_iff_ne, ne_eq] at h
      simp [step, h]
    | Chr c =>
      simp only [recognizedEvent, Bool.or_eq_false_iff, beq_eq_false_iff_ne, ne_eq] at h
      simp [step, h.1, h.2]
    | Enter => simp [recognizedEvent] at h
    | Esc => simp [recognizedEvent] at h
    | Up => simp [recognizedEvent] at h
    | Down => simp [recognizedEvent] at h
    | Backspace => rfl
    | Left => rfl
    | Right => rfl
    | Home => rfl
    | End => rfl
    | PageUp => rfl
    | PageDown => rfl
    | Delete => rfl
    | Insert => rfl
    | Alt c => rfl
    | Null => rfl
  | Mouse => rfl
  | Unsupported => rfl
  | Unknown => rfl

/-- Witness for C8: a mouse event at `sampleState` is a pure no-op. -/
theorem unrecognized_event_noop_witness :
    recognizedEvent InputEvent.Mouse = false ∧
    step sampleState (some InputEvent.Mouse) = some (StepResult.NoOp sampleState) :=
  ⟨rfl, unrecognized_event_noop sampleState InputEvent.Mouse rfl⟩

/-- C4: the prompt starts with all flags false and focus 0 (which satisfies
the invariant), and one step from any invariant state leaves any carried
state (the `Render`/`NoOp` outcomes) satisfying the invariant again: flag
list as long as the provider list, focus within `[0, N]`. -/
theorem selection_invariant (options : List GitStatusItem) (s s' : FilesPrompt)
    (e : Option InputEvent) (r : StepResult)
    (h : Inv s) (hstep : step s e = some r) (hres : resultState r = some s') :
    ((FilesPrompt.new options).checked = List.replicate options.length false ∧
     (FilesPrompt.new options).focused_index = 0 ∧ Inv (FilesPrompt.new options)) ∧
    Inv s' := by
  obtain ⟨hlen, hfoc⟩ := h
  refine ⟨⟨by simp [FilesPrompt.new, List.map_const'], rfl,
    by constructor <;> simp [FilesPrompt.new]⟩, ?_⟩
  cases e with
  | none =>
    simp only [step, Option.some.injEq] at hstep
    rw [← hstep] at hres
    simp only [resultState, Option.some.injEq] at hres
    rw [← hres]
    exact ⟨hlen, hfoc⟩
  | some ie =>
    cases ie with
    | Keyboard k =>
      cases k with
      | Ctrl c =>
        simp only [step] at hstep
        split at hstep <;> simp only [Option.some.injEq] at hstep <;> rw [← hstep] at hres
        · simp [resultState] at hres
        · simp only [resultState, Option.some.injEq] at hres
          rw [← hres]
          exact ⟨hlen, hfoc⟩
      | Chr c =>
        simp only [step] at hstep
        by_cases hsp : c = ' '
        · rw [if_pos hsp] at hstep
          cases hsc : spaceChecked s.checked s.focused_index with
          | none => rw [hsc] at hstep; simp at hstep
          | some c' =>
            rw [hsc] at hstep
            simp only [Option.some.injEq] at hstep
            rw [← hstep] at hres
            simp only [resultState, Option.some.injEq] at hres
            rw [← hres]
            exact ⟨by rw [spaceChecked_length s.checked s.focused_index c' hsc]; exact hlen, hfoc⟩
        · rw [if_neg hsp] at hstep
          by_cases hd : c = 'd'
          · rw [if_pos hd] at hstep
            cases hdf : dFiles s.options s.focused_index with
            | none => rw [hdf] at hstep; simp at hstep
            | some fs =>
              rw [hdf] at hstep
              simp only [Option.some.injEq] at hstep
              rw [← hstep] at hres
              simp only [resultState, Option.some.injEq] at hres
              rw [← hres]
              exact ⟨hlen, hfoc⟩
          · rw [if_neg hd] at hstep
            simp only [Option.some.injEq] at hstep
            rw [← hstep] at hres
            simp only [resultState, Option.some.injEq] at hres
            rw [← hres]
            exact ⟨hlen, hfoc⟩
      | Enter =>
        simp only [step] at hstep
        cases hen : enterSelected s.options s.checked with
        | none => rw [hen] at hstep; simp at hstep
        | some sel =>
          rw [hen] at hstep
          simp only [Option.some.injEq] at hstep
          rw [← hstep] at hres
          simp [resultState] at hres
      | Esc =>
        simp only [step, Option.some.injEq] at hstep
        rw [← hstep] at hres
        simp [resultState] at hres
      | Up =>
        simp only [step, Option.some.injEq] at hstep
        rw [← hstep] at hres
        simp only [resultState, Option.some.injEq] at hres
        rw [← hres]
        exact ⟨hlen, Nat.le_trans (upFocus_le _) hfoc⟩
      | Down =>
        simp only [step, Option.some.injEq] at hstep
        rw [← hstep] at hres
        simp only [resultState, Option.some.injEq] at hres
        rw [← hres]
        exact ⟨hlen, downFocus_le _ _⟩
      | Backspace =>
        simp only [step, Option.some.injEq] at hstep
        rw [← hstep] at hres
        simp only [resultState, Option.some.injEq] at hres
        rw [← hres]; exact ⟨hlen, hfoc⟩
      | Left =>
        simp only [step, Option.some.injEq] at hstep
        rw [← hstep] at hres
        simp only [resultState, Option.some.injEq] at hres
        rw [← hres]; exact ⟨hlen, hfoc⟩
      | Right =>
        simp only [step, Option.some.injEq] at hstep
        rw [← hstep] at hres
        simp only [resultState, Option.some.injEq] at hres
        rw [← hres]; exact ⟨hlen, hfoc⟩
      | Home =>
        simp only [step, Option.some.injEq] at hstep
        rw [← hstep] at hres
        simp only [resultState, Option.some.injEq] at hres
        rw [← hres]; exact ⟨hlen, hfoc⟩
      | End =>
        simp only [step, Option.some.injEq] at hstep
        rw [← hstep] at hres
        simp only [resultState, Option.some.injEq] at hres
        rw [← hres]; exact ⟨hlen, hfoc⟩
      | PageUp =>
        simp only [step, Option.some.injEq] at hstep
        rw [← hstep] at hres
        simp only [resultState, Option.some.injEq] at hres
        rw [← hres]; exact ⟨hlen, hfoc⟩
      | PageDown =>
        simp only [step, Option.some.injEq] at hstep
        rw [← hstep] at hres
        simp only [resultState, Option.some.injEq] at hres
        rw [← hres]; exact ⟨hlen, hfoc⟩
      | Delete =>
        simp only [step, Option.some.injEq] at hstep
        rw [← hstep] at hres
        simp only [resultState, Option.some.injEq] at hres
        rw [← hres]; exact ⟨hlen, hfoc⟩
      | Insert =>
        simp only [step, Option.some.injEq] at hstep
        rw [← hstep] at hres
        simp only [resultState, Option.some.injEq] at hres
        rw [← hres]; exact ⟨hlen, hfoc⟩
      | Alt c =>
        simp only [step, Option.some.injEq] at hstep
        rw [← hstep] at hres
        simp only [resultState, Option.some.injEq] at hres
        rw [← hres]; exact ⟨hlen, hfoc⟩
      | Null =>
        simp only [step, Option.some.injEq] at hstep
        rw [← hstep] at hres
        simp only [resultState, Option.some.injEq] at hres
        rw [← hres]; exact ⟨hlen, hfoc⟩
    | Mouse =>
      simp only [step, Option.some.injEq] at hstep
      rw [← hstep] at hres
      simp only [resultState, Option.some.injEq] at hres
      rw [← hres]; exact ⟨hlen, hfoc⟩
    | Unsupported =>
      simp only [step, Option.some.injEq] at hstep
      rw [← hstep] at hres
      simp only [resultState, Option.some.injEq] at hres
      rw [← hres]; exact ⟨hlen, hfoc⟩
    | Unknown =>
      simp only [step, Option.some.injEq] at hstep
      rw [← hstep] at hres
      simp only [resultState, Option.some.injEq] at hres
      rw [← hres]; exact ⟨hlen, hfoc⟩

/-- Witness for C4: a Down press at `sampleState` keeps the invariant. -/
theorem selection_invariant_witness :
    Inv sampleState ∧
    step sampleState (some (InputEvent.Keyboard KeyEvent.Down)) =
      some (StepResult.Render sampleDown) ∧
    resultState (StepResult.Render sampleDown) = some sampleDown ∧
    (((FilesPrompt.new sampleOptions).checked = List.replicate sampleOptions.length false ∧
      (FilesPrompt.new sampleOptions).focused_index = 0 ∧ Inv (FilesPrompt.new sampleOptions)) ∧
     Inv sampleDown) :=
  ⟨by decide, by decide, rfl,
    selection_invariant sampleOptions sampleState sampleDown
      (some (InputEvent.Keyboard KeyEvent.Down)) (StepResult.Render sampleDown)
      (by decide) (by decide) rfl⟩

/-- C5 (amended): provided the real-row count plus one fits the `u16` focus
index (`N + 1 < 2^16`): Up at focus 0 leaves the state unchanged, Down at
focus N leaves the state unchanged, and for interior focus Up-then-Down and
Down-then-Up both return to the original state. -/
theorem focus_motion (s : FilesPrompt) (hn : s.options.length + 1 < 65536) :
    (s.focused_index = 0 →
      step s (some (InputEvent.Keyboard KeyEvent.Up)) = some (StepResult.Render s)) ∧
    (s.focused_index = s.options.length →
      step s (some (InputEvent.Keyboard KeyEvent.Down)) = some (StepResult.Render s)) ∧
    (0 < s.focused_index → s.focused_index < s.options.length →
      (∃ s₁, step s (some (InputEvent.Keyboard KeyEvent.Up)) = some (StepResult.Render s₁) ∧
        step s₁ (some (InputEvent.Keyboard KeyEvent.Down)) = some (StepResult.Render s)) ∧
      (∃ s₂, step s (some (InputEvent.Keyboard KeyEvent.Down)) = some (StepResult.Render s₂) ∧
        step s₂ (some (InputEvent.Keyboard KeyEvent.Up)) = some (StepResult.Render s))) := by
  obtain ⟨checked, f, options⟩ := s
  simp only at hn
  refine ⟨?_, ?_, ?_⟩
  · intro hf0
    simp only at hf0
    subst hf0
    simp [step, upFocus]
  · intro hfN
    simp only at hfN
    subst hfN
    simp only [step]
    rw [downFocus_no_wrap _ _ hn (Nat.le_refl _)]
    simp
  · intro h0 hN
    simp only at h0 hN
    constructor
    · refine ⟨⟨checked, f - 1, options⟩, by simp [step, upFocus_eq], ?_⟩
      simp only [step]
      rw [downFocus_no_wrap _ _ hn (by omega)]
      rw [if_neg (by omega)]
      rw [show f - 1 + 1 = f by omega]
    · refine ⟨⟨checked, downFocus options.length f, options⟩, by simp [step], ?_⟩
      simp only [step, upFocus_eq]
      rw [downFocus_no_wrap _ _ hn (by omega)]
      rw [if_neg (by omega)]
      rw [show f + 1 - 1 = f by omega]

/-- Witness for C5 at `sampleState` (three files, interior focus 2). -/
theorem focus_motion_witness :
    sampleState.options.length + 1 < 65536 ∧
    ((sampleState.focused_index = 0 →
      step sampleState (some (InputEvent.Keyboard KeyEvent.Up)) =
        some (StepResult.Render sampleState)) ∧
    (sampleState.focused_index = sampleState.options.length →
      step sampleState (some (InputEvent.Keyboard KeyEvent.Down)) =
        some (StepResult.Render sampleState)) ∧
    (0 < sampleState.focused_index → sampleState.focused_index < sampleState.options.length →
      (∃ s₁, step sampleState (some (InputEvent.Keyboard KeyEvent.Up)) =
          some (StepResult.Render s₁) ∧
        step s₁ (some (InputEvent.Keyboard KeyEvent.Down)) =
          some (StepResult.Render sampleState)) ∧
      (∃ s₂, step sampleState (some (InputEvent.Keyboard KeyEvent.Down)) =
          some (StepResult.Render s₂) ∧
        step s₂ (some (InputEvent.Keyboard KeyEvent.Up)) =
          some (StepResult.Render sampleState)))) :=
  ⟨by decide, focus_motion sampleState (by decide)⟩

/-- Counterexample to C5 as stated: with 65535 files (a state satisfying the
documented invariant, focus = N), the Down handler's `u16` arithmetic wraps
(`options.len() as u16 + 1` overflows to 0) and resets the focus to 0 instead
of leaving it at N = 65535. -/
theorem down_at_focus_n_wraps :
    Inv bigState ∧
    bigState.focused_index = bigState.options.length ∧
    step bigState (some (InputEvent.Keyboard KeyEvent.Down)) =
      some (StepResult.Render { bigState with focused_index := 0 }) ∧
    (0 : Nat) ≠ 65535 := by
  have h1 : bigState.checked.length = 65535 := by
    show (List.replicate 65535 false).length = 65535
    rw [List.length_replicate]
  have h2 : bigState.options.length = 65535 := by
    show (List.replicate 65535 (GitStatusItem.new "f")).length = 65535
    rw [List.length_replicate]
  have h3 : bigState.focused_index = 65535 := rfl
  have hd : downFocus 65535 65535 = 0 := by decide
  refine ⟨⟨by rw [h1, h2], by rw [h3, h2]⟩, by rw [h3, h2], ?_, by omega⟩
  simp only [step]
  rw [h2, h3, hd]

/-- C6: with cap 15, a total of at most 15 real rows is shown in full with no
summary line, while a total above 15 shows exactly `15 - 3 = 12` real rows
(plus the select-all row) followed by one `"and K more"` line with
`K = total - 12`, keeping the over-cap display at `1 + 12 + 1 = 14 ≤ 15`
rows; in particular 20 real rows yield `"and 8 more"`. -/
theorem display_cap_rows (s : FilesPrompt) (h : Inv s) :
    (s.options.length ≤ 15 → takeCount s.options.length = s.options.length ∧
      summaryLines s.options.length = []) ∧
    (s.options.length > 15 → takeCount s.options.length = 12 ∧
      summaryLines s.options.length =
        ["and " ++ toString (s.options.length - 12) ++ " more"] ∧
      1 + takeCount s.options.length + (summaryLines s.options.length).length ≤ 15) ∧
    (∃ rows, promptRows s = some rows ∧ rows.length = takeCount s.options.length + 1) ∧
    (s.options.length = 20 → takeCount s.options.length = 12 ∧
      summaryLines s.options.length = ["and 8 more"]) := by
  obtain ⟨rows, hrows, hrl, _⟩ := promptRows_spec s h
  refine ⟨?_, ?_, ⟨rows, hrows, hrl⟩, ?_⟩
  · intro hle
    have ht : takeCount s.options.length = s.options.length := by
      unfold takeCount
      rw [if_neg (by omega)]
    refine ⟨ht, ?_⟩
    unfold summaryLines
    rw [ht, if_neg (by omega)]
  · intro hgt
    have ht : takeCount s.options.length = 12 := by
      unfold takeCount
      rw [if_pos (by omega)]
    refine ⟨ht, ?_, ?_⟩
    · unfold summaryLines
      rw [ht, if_pos (by omega)]
    · unfold summaryLines
      rw [ht, if_pos (by omega)]
      simp
  · intro h20
    have ht : takeCount s.options.length = 12 := by
      unfold takeCount
      rw [if_pos (by omega)]
    refine ⟨ht, ?_⟩
    unfold summaryLines
    rw [ht, if_pos (by omega), h20]
    rfl

/-- Witness for C6 at `state20` (20 files, over the cap). -/
theorem display_cap_rows_witness :
    Inv state20 ∧
    ((state20.options.length ≤ 15 → takeCount state20.options.length = state20.options.length ∧
      summaryLines state20.options.length = []) ∧
    (state20.options.length > 15 → takeCount state20.options.length = 12 ∧
      summaryLines state20.options.length =
        ["and " ++ toString (state20.options.length - 12) ++ " more"] ∧
      1 + takeCount state20.options.length + (summaryLines state20.options.length).length ≤ 15) ∧
    (∃ rows, promptRows state20 = some rows ∧
      rows.length = takeCount state20.options.length + 1) ∧
    (state20.options.length = 20 → takeCount state20.options.length = 12 ∧
      summaryLines state20.options.length = ["and 8 more"])) :=
  ⟨by decide, display_cap_rows state20 (by decide)⟩

/-- C9 (amended): every frame is built in the fixed order banner block, then
a three-line block (one blank spacer line and the two static instruction
lines), then the rows starting with the virtual select-all row, then the
optional summary; the cursor target row is banner height + 3 + focused
index. -/
theorem frame_order_and_cursor (s : FilesPrompt) (h : Inv s) (header : List String) :
    ∃ rows, promptRows s = some rows ∧
      buildFrame header s =
        some (header ++ ["", promptPre, underscores] ++ rows ++ summaryLines s.options.length,
          header.length + 3 + s.focused_index) ∧
      rows.head? = some (rowLine (0 % 65536 == s.focused_index)
        (s.checked.all (fun x => x)) (GitStatusItem.new "<all>")) := by
  obtain ⟨rows, hrows, _, hhead⟩ := promptRows_spec s h
  refine ⟨rows, hrows, ?_, hhead⟩
  unfold buildFrame
  rw [hrows]
  simp [List.append_assoc]

/-- Witness for C9 (amended) at `smallState` with a one-line banner. -/
theorem frame_order_and_cursor_witness :
    Inv smallState ∧
    (∃ rows, promptRows smallState = some rows ∧
      buildFrame ["<banner>"] smallState =
        some (["<banner>"] ++ ["", promptPre, underscores] ++ rows ++
            summaryLines smallState.options.length,
          (["<banner>"] : List String).length + 3 + smallState.focused_index) ∧
      rows.head? = some (rowLine (0 % 65536 == smallState.focused_index)
        (smallState.checked.all (fun x => x)) (GitStatusItem.new "<all>"))) :=
  ⟨by decide, frame_order_and_cursor smallState (by decide) ["<banner>"]⟩

/-- Counterexample to C9 as stated: with a one-line banner and one file at
focus 0 the built frame has 6 lines and cursor target row 4, while a
two-line instruction block would give 5 lines (banner 1 + instructions 2 +
select-all row + 1 real row) and cursor row 1 + 2 + 0 = 3: the code pushes a
blank line before the two instruction lines, so the block is three lines
tall. -/
theorem frame_cursor_off_by_blank_line :
    (buildFrame ["<banner>"] smallState).map (fun p => (p.1.length, p.2)) = some (6, 4) ∧
    ¬ ((4 : Nat) = 1 + 2 + 0 ∧ (6 : Nat) = 1 + 2 + (1 + 1) + 0) := by
  refine ⟨?_, by omega⟩
  decide

/-- C10: under the invariant no panic branch of the loop body is reachable:
the Space handler's `checked[focus - 1]` and the 'd' handler's
`.nth(focus - 1)` lookups succeed whenever focus ≥ 1, one step never hits a
`none` (panic) branch for any event, and the row-render loop of the frame
build never indexes out of bounds. -/
theorem loop_body_no_panic (s : FilesPrompt) (h : Inv s) :
    (1 ≤ s.focused_index → (s.checked[s.focused_index - 1]?).isSome ∧
      (s.options[s.focused_index - 1]?).isSome) ∧
    (∀ e, (step s e).isSome) ∧
    (∀ header, (buildFrame header s).isSome) := by
  obtain ⟨hlen, hfoc⟩ := h
  have hspace : ∃ c, spaceChecked s.checked s.focused_index = some c ∧
      c.length = s.checked.length :=
    spaceChecked_some s.checked s.focused_index (by omega)
  have hdf : ∃ fs, dFiles s.options s.focused_index = some fs :=
    dFiles_some s.options s.focused_index hfoc
  have hen : enterAux s.checked s.options 0 =
      some (((s.options.zip s.checked).filter (fun p => p.2)).map (fun p => p.1.file_name)) := by
    simpa using enterAux_eq s.checked s.options 0 (by omega)
  obtain ⟨rows, hrows, _, _⟩ := promptRows_spec s ⟨hlen, hfoc⟩
  refine ⟨?_, ?_, ?_⟩
  · intro h1
    constructor
    · rw [List.getElem?_eq_getElem (by omega : s.focused_index - 1 < s.checked.length)]
      rfl
    · rw [List.getElem?_eq_getElem (by omega : s.focused_index - 1 < s.options.length)]
      rfl
  · intro e
    obtain ⟨c', hc', _⟩ := hspace
    obtain ⟨fs, hfs⟩ := hdf
    cases e with
    | none => simp [step]
    | some ie =>
      cases ie with
      | Keyboard k =>
        cases k with
        | Ctrl c =>
          simp only [step]
          split <;> simp
        | Chr c =>
          by_cases hsp : c = ' '
          · simp [step, hsp, hc']
          · by_cases hd : c = 'd'
            · simp [step, hsp, hd, hfs]
            · simp [step, hsp, hd]
        | Enter => simp [step, enterSelected, hen]
        | Esc => simp [step]
        | Up => simp [step]
        | Down => simp [step]
        | Backspace => simp [step]
        | Left => simp [step]
        | Right => simp [step]
        | Home => simp [step]
        | End => simp [step]
        | PageUp => simp [step]
        | PageDown => simp [step]
        | Delete => simp [step]
        | Insert => simp [step]
        | Alt c => simp [step]
        | Null => simp [step]
      | Mouse => simp [step]
      | Unsupported => simp [step]
      | Unknown => simp [step]
  · intro header
    unfold buildFrame
    rw [hrows]
    simp

/-- Witness for C10 at `sampleState`. -/
theorem loop_body_no_panic_witness :
    Inv sampleState ∧
    ((1 ≤ sampleState.focused_index →
      (sampleState.checked[sampleState.focused_index - 1]?).isSome ∧
      (sampleState.options[sampleState.focused_index - 1]?).isSome) ∧
    (∀ e, (step sampleState e).isSome) ∧
    (∀ header, (buildFrame header sampleState).isSome)) :=
  ⟨by decide, loop_body_no_panic sampleState (by decide)⟩

/-- C7 (TermBuffer modelled from the spec): a render-then-flush from a
terminal showing `previous` leaves the terminal showing exactly the pending
frame's lines (extra previous lines cleared to blank, positions kept), the
cursor at the recorded target, promotes `pending` to `previous`, clears
`pending`, and issues no write operation at any line index where `previous`
and `pending` already agree. -/
theorem render_flush_contract (b : TermBuffer) (t : Terminal)
    (hsync : t.screen = b.previous) :
    ((b.flush t).2).screen =
      b.pending ++ List.replicate (b.previous.length - b.pending.length) "" ∧
    ((b.flush t).2).cursor = b.cursorTarget ∧
    ((b.flush t).1).previous = b.pending ∧
    ((b.flush t).1).pending = [] ∧
    (∀ j, b.previous[j]? = b.pending[j]? → (b.pending[j]?).isSome →
      ∀ op ∈ renderOps b.previous b.pending 0, touchIdx op ≠ some j) := by
  refine ⟨?_, rfl, rfl, rfl, ?_⟩
  · show (renderOps b.previous b.pending 0).foldl applyOp t.screen = _
    rw [hsync]
    have hmain := foldl_renderOps b.previous b.pending []
    simpa using hmain
  · intro j heq hsome op hmem
    have hcon := renderOps_untouched b.previous b.pending 0 j heq hsome op hmem
    simpa using hcon

/-- Witness for C7: previous `[A,B,C]`, pending `[A,X,C,D]` — the flushed
terminal shows `[A,X,C,D]` and lines 1 and 3 receive no write. -/
theorem render_flush_contract_witness :
    sampleTerminal.screen = sampleBuffer.previous ∧
    (((sampleBuffer.flush sampleTerminal).2).screen =
      sampleBuffer.pending ++
        List.replicate (sampleBuffer.previous.length - sampleBuffer.pending.length) "" ∧
    ((sampleBuffer.flush sampleTerminal).2).cursor = sampleBuffer.cursorTarget ∧
    ((sampleBuffer.flush sampleTerminal).1).previous = sampleBuffer.pending ∧
    ((sampleBuffer.flush sampleTerminal).1).pending = [] ∧
    (∀ j, sampleBuffer.previous[j]? = sampleBuffer.pending[j]? →
      (sampleBuffer.pending[j]?).isSome →
      ∀ op ∈ renderOps sampleBuffer.previous sampleBuffer.pending 0,
        touchIdx op ≠ some j)) :=
  ⟨rfl, render_flush_contract sampleBuffer sampleTerminal rfl⟩

end Glint
